import Mathlib

/-!
Shallow embedding of the transformation pipeline of `sync-fs-at.py`
(survey/response export to a spreadsheet).

Python values that can occur in a Firestore document are modelled by the
inductive type `PyVal`.  Floats are opaque scalars carrying their `str`
rendering together with their truthiness (the code never computes with
floats, it only string-casts them and tests them for truthiness);
datetimes carry their `isoformat` rendering.  The `str` rendering of
lists and dicts is abstracted (no code path exercised by the claims
applies `str` to them).

Python dicts are modelled as association lists in insertion order:
assignment to an existing key updates it in place, assignment to a fresh
key appends.  Functions that can raise (`KeyError`, `AttributeError`,
`TypeError`) return `Option`, `none` standing for an uncaught exception.
-/

inductive PyVal where
  | str (s : String)
  | int (n : Int)
  | flt (r : String) (t : Bool)
  | ts (iso : String)
  | pynone
  | list (xs : List PyVal)
  | dict (d : List (String × PyVal))

mutual

def pyBeq : PyVal → PyVal → Bool
  | .str a, .str b => a == b
  | .int a, .int b => a == b
  | .flt a t, .flt b u => a == b && t == u
  | .ts a, .ts b => a == b
  | .pynone, .pynone => true
  | .list xs, .list ys => pyBeqL xs ys
  | .dict xs, .dict ys => pyBeqD xs ys
  | _, _ => false

def pyBeqL : List PyVal → List PyVal → Bool
  | [], [] => true
  | x :: xs, y :: ys => pyBeq x y && pyBeqL xs ys
  | _, _ => false

def pyBeqD : List (String × PyVal) → List (String × PyVal) → Bool
  | [], [] => true
  | (k, x) :: xs, (k', y) :: ys => k == k' && pyBeq x y && pyBeqD xs ys
  | _, _ => false

end

theorem pyBeq_iff_aux :
    ∀ (n : Nat) (a b : PyVal), sizeOf a ≤ n → (pyBeq a b = true ↔ a = b) := by
  intro n
  induction n with
  | zero =>
    intro a b ha
    exfalso
    cases a <;> simp_all
  | succ n ih =>
    intro a b ha
    have auxL : ∀ (xs ys : List PyVal), (∀ x ∈ xs, sizeOf x ≤ n) →
        (pyBeqL xs ys = true ↔ xs = ys) := by
      intro xs
      induction xs with
      | nil => intro ys _; cases ys <;> simp [pyBeqL]
      | cons x xs ihxs =>
        intro ys hsz
        cases ys with
        | nil => simp [pyBeqL]
        | cons y ys =>
          have h1 := ih x y (hsz x (by simp))
          have h2 := ihxs ys (fun z hz => hsz z (by simp [hz]))
          simp [pyBeqL, h1, h2]
    have auxD : ∀ (xs ys : List (String × PyVal)), (∀ p ∈ xs, sizeOf p.2 ≤ n) →
        (pyBeqD xs ys = true ↔ xs = ys) := by
      intro xs
      induction xs with
      | nil => intro ys _; cases ys <;> simp [pyBeqD]
      | cons p xs ihxs =>
        intro ys hsz
        obtain ⟨k, x⟩ := p
        cases ys with
        | nil => simp [pyBeqD]
        | cons q ys =>
          obtain ⟨k', y⟩ := q
          have h1 := ih x y (hsz (k, x) (by simp))
          have h2 := ihxs ys (fun z hz => hsz z (by simp [hz]))
          simp [pyBeqD, h1, h2, and_assoc]
    cases a <;> cases b <;> simp [pyBeq]
    case list.list xs ys =>
      exact auxL xs ys (fun x hx => by
        have : sizeOf x < sizeOf (PyVal.list xs) := by
          have := List.sizeOf_lt_of_mem hx
          simp only [PyVal.list.sizeOf_spec]
          omega
        omega)
    case dict.dict xs ys =>
      exact auxD xs ys (fun p hp => by
        have h1 : sizeOf p < sizeOf (PyVal.dict xs) := by
          have := List.sizeOf_lt_of_mem hp
          simp only [PyVal.dict.sizeOf_spec]
          omega
        have h2 : sizeOf p.2 < sizeOf p := by
          obtain ⟨k, v⟩ := p
          simp only [Prod.mk.sizeOf_spec]
          omega
        omega)

theorem pyBeq_iff (a b : PyVal) : pyBeq a b = true ↔ a = b :=
  pyBeq_iff_aux (sizeOf a) a b (le_refl _)

instance : DecidableEq PyVal := fun a b => decidable_of_iff _ (pyBeq_iff a b)

/-- Python truthiness (`if not name`, `if cell.value`, `if responses`). -/
def truthy : PyVal → Bool
  | .str s => !(s == "")
  | .int n => !(n == 0)
  | .flt _ t => t
  | .ts _ => true
  | .pynone => false
  | .list xs => !xs.isEmpty
  | .dict d => !d.isEmpty

/-- Python `str()`.  Lists and dicts are abstracted (never string-cast by
the code paths the claims exercise); `str` of a float is its stored repr. -/
def pyStr : PyVal → String
  | .str s => s
  | .int n => toString n
  | .flt r _ => r
  | .ts iso => iso
  | .pynone => "None"
  | .list _ => "[...]"
  | .dict _ => "\x7b...\x7d"

/-- A flattened Firestore record: a Python dict from field path to value. -/
abbrev PyRec := List (String × PyVal)

/-- `d[k]` as a partial lookup: first entry with key `k` (Python dicts keep
one entry per key; on such lists this is the dict lookup). -/
def assocGet {κ α : Type} [DecidableEq κ] (d : List (κ × α)) (k : κ) : Option α :=
  (d.find? (fun p => p.1 == k)).map Prod.snd

/-- `k in d`. -/
def assocHas {κ α : Type} [DecidableEq κ] (d : List (κ × α)) (k : κ) : Bool :=
  d.any (fun p => p.1 == k)

/-- `d[k] = v`: update in place when the key exists, append otherwise. -/
def assocSet {κ α : Type} [DecidableEq κ] (d : List (κ × α)) (k : κ) (v : α) : List (κ × α) :=
  if assocHas d k then d.map (fun p => if p.1 == k then (k, v) else p) else d ++ [(k, v)]

/-- Python `dict(items)`: fold the pairs into a fresh dict (first-seen key
position, last value wins). -/
def pyDict {κ α : Type} [DecidableEq κ] (items : List (κ × α)) : List (κ × α) :=
  items.foldl (fun d p => assocSet d p.1 p.2) []

/-- `d.get(k, dflt)`. -/
def pyGetD {κ α : Type} [DecidableEq κ] (d : List (κ × α)) (k : κ) (dflt : α) : α :=
  (assocGet d k).getD dflt

/-- The recursive `flatten` helper of `flatten_document`, before the final
`dict(items)`: walks entries in order, recursing into dict values with a
dotted prefix and keeping other values as single pairs. -/
def flattenItems : List (String × PyVal) → String → List (String × PyVal)
  | [], _ => []
  | (k, v) :: rest, parent =>
    let newKey := if parent = "" then k else parent ++ "." ++ k
    (match v with
     | PyVal.dict d => pyDict (flattenItems d newKey)
     | v => [(newKey, v)]) ++ flattenItems rest parent

/-- A Firestore document snapshot: its `to_dict()` data and its `id`. -/
structure DocSnapshot where
  data : List (String × PyVal)
  docId : String
deriving DecidableEq

/-- `flatten_document`: flatten the document data, then set `['id']` to the
document id. -/
def flatten_document (doc : DocSnapshot) : PyRec :=
  assocSet (pyDict (flattenItems doc.data "")) "id" (PyVal.str doc.docId)

/-- `Option`-valued map: `none` as soon as `f` fails (models a Python loop
whose body may raise). -/
def mapOpt {α β : Type} (f : α → Option β) : List α → Option (List β)
  | [] => some []
  | a :: l =>
    match f a with
    | some b => (mapOpt f l).map (fun bs => b :: bs)
    | none => none

/-- A processed question: `{'id': question.get('id'), 'text': ...}`. -/
structure Question where
  id : PyVal
  text : PyVal
deriving DecidableEq

/-- A processed survey as built by `process_surveys`. -/
structure Survey where
  name : PyVal
  description : PyVal
  created_at : String
  questions : List Question
deriving DecidableEq

/-- `rec.get(heKey, rec.get(enKey, ''))`: the localized-preference lookup
as the code performs it (`dict.get` falls back only on an absent key). -/
def resolveLoc (r : PyRec) (heKey enKey : String) : PyVal :=
  pyGetD r heKey (pyGetD r enKey (PyVal.str ""))

/-- One iteration of the question loop of `process_surveys`:
`text = question.get('text', {}); question_text = text.get('he',
text.get('en', '')); questions.append({'id': question.get('id'), ...})`.
Fails (`AttributeError`/`TypeError`) when the question or its `text`
value is not a dict. -/
def processQuestion (q : PyVal) : Option Question :=
  match q with
  | PyVal.dict qd =>
    match pyGetD qd "text" (PyVal.dict []) with
    | PyVal.dict td =>
      some ⟨pyGetD qd "id" PyVal.pynone, resolveLoc td "he" "en"⟩
    | _ => none
  | _ => none

/-- The loop of `process_surveys`, with the accumulated
`processed_surveys` dict (keyed by `survey['id']`). -/
def processSurveysAux (acc : List (PyVal × Survey)) : List PyRec → Option (List (PyVal × Survey))
  | [] => some acc
  | survey :: rest =>
    let name := resolveLoc survey "name.he" "name.en"
    let description := resolveLoc survey "description.he" "description.en"
    if !(truthy name) then processSurveysAux acc rest
    else
      match pyGetD survey "questions" (PyVal.list []) with
      | PyVal.list qsRaw =>
        match mapOpt processQuestion qsRaw with
        | some questions =>
          if questions.isEmpty then processSurveysAux acc rest
          else
            match assocGet survey "creationDateTime", assocGet survey "id" with
            | some (PyVal.ts iso), some sid =>
              processSurveysAux (assocSet acc sid ⟨name, description, iso, questions⟩) rest
            | _, _ => none
        | none => none
      | _ => none

/-- `process_surveys`: raw flattened survey records to the
`survey_id -> survey` dict; skips surveys with a falsy resolved name and
surveys whose `questions` list comes out empty. -/
def process_surveys (surveys : List PyRec) : Option (List (PyVal × Survey)) :=
  processSurveysAux [] surveys

/-- The header list of `process_responses`:
`['time', 'lat', 'lon'] + [q['text'] for q in survey['questions']]`. -/
def mkHeaders (sv : Survey) : List PyVal :=
  [PyVal.str "time", PyVal.str "lat", PyVal.str "lon"] ++ sv.questions.map Question.text

/-- An answers row: the Python dict built for one valid response
(string keys `time`/`lat`/`lon` plus one key per answered question text). -/
abbrev Row := List (PyVal × String)

/-- `[a for a in response_answers if a['questionId'] == qid]`; fails when
an entry is not a dict or lacks `questionId`. -/
def filterAnswers : List PyVal → PyVal → Option (List PyVal)
  | [], _ => some []
  | a :: rest, qid =>
    match a with
    | PyVal.dict ad =>
      match assocGet ad "questionId" with
      | some v =>
        match filterAnswers rest qid with
        | some r => some (if v = qid then a :: r else r)
        | none => none
      | none => none
    | _ => none

/-- The question loop of `process_responses`: for each declared question,
when exactly one answer matches, set `answers[question['text']]` to the
string-cast `answer[0]['response']`; otherwise leave `answers` unchanged. -/
def answerLoop : List Question → List PyVal → Row → Option Row
  | [], _, acc => some acc
  | q :: qs, ras, acc =>
    match filterAnswers ras q.id with
    | some ms =>
      match ms with
      | [a] =>
        match a with
        | PyVal.dict ad =>
          match assocGet ad "response" with
          | some v => answerLoop qs ras (assocSet acc q.text (pyStr v))
          | none => none
        | _ => none
      | _ => answerLoop qs ras acc
    | none => none

/-- The row built for one matching response with a latitude field:
`dict(time=..., lat=..., lon=...)` then the question loop.  Reads
`submittedTs` (must be a datetime), `coordinates.latitude` and
`coordinates.longitude` by unguarded subscript. -/
def rowOf (sv : Survey) (response : PyRec) : Option Row :=
  match assocGet response "submittedTs" with
  | some (PyVal.ts iso) =>
    match assocGet response "coordinates.latitude" with
    | some latv =>
      match assocGet response "coordinates.longitude" with
      | some lonv =>
        match pyGetD response "responses" (PyVal.list []) with
        | PyVal.list ras =>
          answerLoop sv.questions ras
            [(PyVal.str "time", iso), (PyVal.str "lat", pyStr latv), (PyVal.str "lon", pyStr lonv)]
        | _ => none
      | none => none
    | none => none
  | _ => none

/-- The response loop of `process_responses`: skip on `surveyId`
mismatch; skip (after the diagnostic reads `response['id']`) when
`coordinates.latitude` is absent; otherwise build the row and append. -/
def processResponsesAux (sv : Survey) (sid : PyVal) : List PyRec → Option (List Row)
  | [] => some []
  | response :: rest =>
    match assocGet response "surveyId" with
    | none => none
    | some rsid =>
      if rsid == sid then
        if assocHas response "coordinates.latitude" then
          match rowOf sv response with
          | some row => (processResponsesAux sv sid rest).map (fun rows => row :: rows)
          | none => none
        else
          match assocGet response "id" with
          | some _ => processResponsesAux sv sid rest
          | none => none
      else processResponsesAux sv sid rest

/-- `process_responses(responses, survey_id, survey) -> (headers, rows)`. -/
def process_responses (responses : List PyRec) (sid : PyVal) (sv : Survey) :
    Option (List PyVal × List Row) :=
  (processResponsesAux sv sid responses).map (fun rows => (mkHeaders sv, rows))

/-- A collected sheet: `(survey['name'], headers, responses)` as appended
by `main`. -/
abbrev SheetData := PyVal × List PyVal × List Row

instance sheetDataDecEq : DecidableEq SheetData := inferInstance

/-- The fixed summary-sheet header row of `write_to_excel`. -/
def summaryHeader : List PyVal :=
  [PyVal.str "שם", PyVal.str "תיאור", PyVal.str "נוצר ב",
   PyVal.str "מספר שאלות", PyVal.str "מספר תגובות"]

/-- One summary row: name, description, created_at, question count, and
the length of `[r for s, _, r in sheets if s == survey['name']]`. -/
def summaryRow (sheets : List SheetData) (sv : Survey) : List PyVal :=
  [sv.name, sv.description, PyVal.str sv.created_at,
   PyVal.int (sv.questions.length : Int),
   PyVal.int (((sheets.filter (fun sh => sh.1 == sv.name)).length : Int))]

/-- A detail sheet's cell grid: the header row, then one row per response
writing `response.get(header, "")` for every declared header. -/
def detailGrid (hs : List PyVal) (rows : List Row) : List (List PyVal) :=
  hs :: rows.map (fun row => hs.map (fun h => PyVal.str (pyGetD row h "")))

/-- The workbook built by `write_to_excel`, as a list of
(sheet title, cell grid) pairs: the summary sheet, then one detail sheet
per collected sheet.  (Serialization, styling and the upload are external
collaborators.) -/
def write_to_excel (surveys : List (PyVal × Survey)) (sheets : List SheetData) :
    List (PyVal × List (List PyVal)) :=
  (PyVal.str "סקרים", summaryHeader :: surveys.map (fun p => summaryRow sheets p.2))
    :: sheets.map (fun sh => (sh.1, detailGrid sh.2.1 sh.2.2))

/-- `max_column` of a sheet: openpyxl pads every row to the widest one. -/
def numCols (g : List (List PyVal)) : Nat :=
  g.foldl (fun m r => max m r.length) 0

/-- The cells of column `j` (row order). -/
def colCells (g : List (List PyVal)) (j : Nat) : List PyVal :=
  g.filterMap (fun r => r[j]?)

/-- The `max_length` loop of `fix_sheet`: `if cell.value:` skips falsy
cell values, otherwise take `len(str(cell.value))` into the max. -/
def codeMaxLen (cells : List PyVal) : Nat :=
  cells.foldl (fun m c => if truthy c then max m (pyStr c).length else m) 0

/-- Column widths assigned by `fix_sheet`:
`(max_length + 2) * 1.0` for each column, i.e. `max_length + 2`. -/
def fix_sheet_widths (g : List (List PyVal)) : List Nat :=
  (List.range (numCols g)).map (fun j => codeMaxLen (colCells g j) + 2)

/-- Modelled from the spec (for comparison with `codeMaxLen`): the
"maximum rendered character length of any cell in that column, including
the header cell", with no truthiness filter. -/
def specMaxLen (cells : List PyVal) : Nat :=
  cells.foldl (fun m c => max m (pyStr c).length) 0

/-- The sheet-collection loop of `main`: for each processed survey run
`process_responses` and append `(survey['name'], headers, responses)`
when the response list is non-empty. -/
def buildSheetsAux (responses : List PyRec) (acc : List SheetData) :
    List (PyVal × Survey) → Option (List SheetData)
  | [] => some acc
  | (sid, sv) :: rest =>
    match process_responses responses sid sv with
    | some (hs, rows) =>
      if rows.isEmpty then buildSheetsAux responses acc rest
      else buildSheetsAux responses (acc ++ [(sv.name, hs, rows)]) rest
    | none => none

/-- The sheets collected by `main` before `write_to_excel`. -/
def buildSheets (surveys : List (PyVal × Survey)) (responses : List PyRec) :
    Option (List SheetData) :=
  buildSheetsAux responses [] surveys

/-- Bool test: the value is a Python string. -/
def PyVal.isStr : PyVal → Bool
  | .str _ => true
  | _ => false

/-- Bool test: the value is a Python dict. -/
def PyVal.isDict : PyVal → Bool
  | .dict _ => true
  | _ => false

/-- Bool test: the optional value is a datetime (has `isoformat`). -/
def isTsOpt : Option PyVal → Bool
  | some (PyVal.ts _) => true
  | _ => false

/-- The `response.get('responses', [])` list (when it is a list). -/
def respAnswers (r : PyRec) : List PyVal :=
  match pyGetD r "responses" (PyVal.list []) with
  | PyVal.list l => l
  | _ => []

/-- Well-formedness of a response's answer list: `responses` is a list of
dicts each carrying `questionId` and `response`. -/
def answersOK (r : PyRec) : Bool :=
  match pyGetD r "responses" (PyVal.list []) with
  | PyVal.list ras =>
    ras.all (fun a =>
      match a with
      | PyVal.dict ad => (assocGet ad "questionId").isSome && (assocGet ad "response").isSome
      | _ => false)
  | _ => false

/-- Precondition under which the response loop cannot raise for a given
response: `surveyId` present; when it matches the target and a latitude
is present, `submittedTs` is a datetime, a longitude is present and the
answer list is well-formed; when it matches without a latitude, `id` is
present (the diagnostic reads it). -/
def respOK (sid : PyVal) (r : PyRec) : Bool :=
  (assocGet r "surveyId").isSome &&
    (if assocGet r "surveyId" == some sid then
      (if assocHas r "coordinates.latitude" then
        isTsOpt (assocGet r "submittedTs") &&
          (assocGet r "coordinates.longitude").isSome && answersOK r
      else (assocGet r "id").isSome)
    else true)

/-- A response that contributes a row: matching `surveyId` and a present
`coordinates.latitude`. -/
def isValidResp (sid : PyVal) (r : PyRec) : Bool :=
  (assocGet r "surveyId" == some sid) && assocHas r "coordinates.latitude"

-- ===================================================================
-- Concrete fixtures used by counterexamples and witnesses
-- ===================================================================

/-- Concrete already-flat document for the C7 witness. -/
def docW7 : DocSnapshot :=
  ⟨[("a", PyVal.str "x"), ("b", PyVal.int 3)], "D1"⟩

/-- Concrete document carrying its own `id` field for the C10 witness. -/
def docW10 : DocSnapshot :=
  ⟨[("id", PyVal.str "old"), ("a", PyVal.str "x")], "D2"⟩

/-- C1 counterexample: a raw survey whose `name.he` is present but empty
and whose `name.en` is "Survey". -/
def s1rec : PyRec :=
  [("name.he", PyVal.str ""), ("name.en", PyVal.str "Survey"),
   ("questions", PyVal.list [PyVal.dict
      [("id", PyVal.str "q1"), ("text", PyVal.dict [("he", PyVal.str "שאלה")])]]),
   ("creationDateTime", PyVal.ts "2024-01-01T00:00:00"), ("id", PyVal.str "s1")]

/-- C1 amended scenario: same survey but with `name.he` absent. -/
def s1brec : PyRec :=
  [("name.en", PyVal.str "Survey"),
   ("questions", PyVal.list [PyVal.dict
      [("id", PyVal.str "q1"), ("text", PyVal.dict [("he", PyVal.str "שאלה")])]]),
   ("creationDateTime", PyVal.ts "2024-01-01T00:00:00"), ("id", PyVal.str "s1")]

/-- C2 counterexample: a named survey whose single question lacks both an
id and any text. -/
def s2rec : PyRec :=
  [("name.he", PyVal.str "N"), ("questions", PyVal.list [PyVal.dict []]),
   ("creationDateTime", PyVal.ts "2024-01-01T00:00:00"), ("id", PyVal.str "s2")]

/-- C2 witness fixture: survey with a falsy resolved name. -/
def c2recA : PyRec := [("name.en", PyVal.str "")]

/-- C2 witness fixture: named survey with no `questions` field. -/
def c2recB : PyRec := [("name.he", PyVal.str "N")]

/-- A processed survey used by the C3/C4/C9 witnesses. -/
def svW : Survey :=
  ⟨PyVal.str "S", PyVal.str "", "2024-01-01T00:00:00", [⟨PyVal.str "q1", PyVal.str "Q"⟩]⟩

/-- Valid matching response (one answer for q1) for the C3 witness. -/
def rw3a : PyRec :=
  [("surveyId", PyVal.str "s1"), ("coordinates.latitude", PyVal.int 31),
   ("coordinates.longitude", PyVal.int 34), ("submittedTs", PyVal.ts "2024-01-02T03:04:05"),
   ("responses", PyVal.list [PyVal.dict
      [("questionId", PyVal.str "q1"), ("response", PyVal.str "כן")]]),
   ("id", PyVal.str "r1")]

/-- Non-matching response for the C3 witness. -/
def rw3b : PyRec := [("surveyId", PyVal.str "s2"), ("id", PyVal.str "r2")]

/-- C9 witness fixture: matching response with a latitude but no
`coordinates.longitude`. -/
def r9rec : PyRec :=
  [("surveyId", PyVal.str "s1"), ("coordinates.latitude", PyVal.int 31),
   ("submittedTs", PyVal.ts "2024-01-02T03:04:05"), ("id", PyVal.str "r1")]

/-- C4 counterexample survey: its single question's text is `time`,
colliding with the fixed time column. -/
def sv4 : Survey :=
  ⟨PyVal.str "S4", PyVal.str "", "2024-01-01T00:00:00", [⟨PyVal.str "q1", PyVal.str "time"⟩]⟩

/-- C4 counterexample response: valid, with an empty answer list. -/
def r4rec : PyRec :=
  [("surveyId", PyVal.str "s1"), ("coordinates.latitude", PyVal.int 31),
   ("coordinates.longitude", PyVal.int 34), ("submittedTs", PyVal.ts "2024-01-02T03:04:05"),
   ("responses", PyVal.list []), ("id", PyVal.str "r1")]

/-- The row `rowOf svW rw3a` evaluates to (used by the C4 witness). -/
def rowW : Row :=
  [(PyVal.str "time", "2024-01-02T03:04:05"), (PyVal.str "lat", "31"),
   (PyVal.str "lon", "34"), (PyVal.str "Q", "כן")]

/-- C6 witness fixture: a sheet with a sparse row (no value for `Q`). -/
def hsW6 : List PyVal := [PyVal.str "time", PyVal.str "Q"]

/-- C6 witness fixture rows. -/
def rowsW6 : List Row := [[(PyVal.str "time", "T")]]

-- ===================================================================
-- Helper lemmas
-- ===================================================================

theorem assocGet_nil {κ α : Type} [DecidableEq κ] (k : κ) :
    assocGet ([] : List (κ × α)) k = none := rfl

theorem assocGet_cons {κ α : Type} [DecidableEq κ] (k' : κ) (v : α) (d : List (κ × α)) (k : κ) :
    assocGet ((k', v) :: d) k = if k' = k then some v else assocGet d k := by
  by_cases h : k' = k <;> simp [assocGet, List.find?_cons, h]

theorem assocHas_nil {κ α : Type} [DecidableEq κ] (k : κ) :
    assocHas ([] : List (κ × α)) k = false := rfl

theorem assocHas_cons {κ α : Type} [DecidableEq κ] (k' : κ) (v : α) (d : List (κ × α)) (k : κ) :
    assocHas ((k', v) :: d) k = (k' == k || assocHas d k) := by
  simp [assocHas, List.any_cons]

theorem assocHas_eq_false_iff {κ α : Type} [DecidableEq κ] (d : List (κ × α)) (k : κ) :
    assocHas d k = false ↔ ∀ p ∈ d, p.1 ≠ k := by
  simp [assocHas, List.any_eq_false]

theorem assocGet_isSome_eq_has {κ α : Type} [DecidableEq κ] (d : List (κ × α)) (k : κ) :
    (assocGet d k).isSome = assocHas d k := by
  induction d with
  | nil => rfl
  | cons p d ih =>
    obtain ⟨k', v⟩ := p
    rw [assocGet_cons, assocHas_cons]
    by_cases h : k' = k <;> simp [h, ih]

theorem assocGet_eq_none_of_not_has {κ α : Type} [DecidableEq κ] {d : List (κ × α)} {k : κ}
    (h : assocHas d k = false) : assocGet d k = none := by
  have := assocGet_isSome_eq_has d k
  rw [h] at this
  exact Option.not_isSome_iff_eq_none.mp (by simp [this])

theorem assocSet_of_not_has {κ α : Type} [DecidableEq κ] {d : List (κ × α)} {k : κ} (v : α)
    (h : assocHas d k = false) : assocSet d k v = d ++ [(k, v)] := by
  simp [assocSet, h]


theorem assocGet_map_replace_ne {κ α : Type} [DecidableEq κ] (d : List (κ × α)) (k k'' : κ)
    (v : α) (hne : k'' ≠ k) :
    assocGet (d.map (fun p => if p.1 == k then (k, v) else p)) k'' = assocGet d k'' := by
  induction d with
  | nil => rfl
  | cons p d ih =>
    obtain ⟨k', v'⟩ := p
    by_cases h : k' = k
    · subst h
      rw [List.map_cons, if_pos (by simp : (((k', v') : κ × α).1 == k') = true)]
      rw [assocGet_cons, assocGet_cons, if_neg (Ne.symm hne), if_neg (Ne.symm hne)]
      exact ih
    · rw [List.map_cons, if_neg (by simp [h] : ¬(((k', v') : κ × α).1 == k) = true)]
      rw [assocGet_cons, assocGet_cons]
      by_cases h2 : k' = k''
      · rw [if_pos h2, if_pos h2]
      · rw [if_neg h2, if_neg h2]
        exact ih

theorem assocGet_map_replace_self {κ α : Type} [DecidableEq κ] (d : List (κ × α)) (k : κ)
    (v : α) (hhas : assocHas d k = true) :
    assocGet (d.map (fun p => if p.1 == k then (k, v) else p)) k = some v := by
  induction d with
  | nil => exact Bool.noConfusion (assocHas_nil k ▸ hhas)
  | cons p d ih =>
    obtain ⟨k', v'⟩ := p
    by_cases h : k' = k
    · subst h
      rw [List.map_cons, if_pos (by simp : (((k', v') : κ × α).1 == k') = true)]
      rw [assocGet_cons, if_pos rfl]
    · rw [assocHas_cons] at hhas
      simp only [Bool.or_eq_true, beq_iff_eq] at hhas
      rw [List.map_cons, if_neg (by simp [h] : ¬(((k', v') : κ × α).1 == k) = true)]
      rw [assocGet_cons, if_neg h]
      exact ih (hhas.resolve_left h)

theorem assocGet_append_single_ne {κ α : Type} [DecidableEq κ] (d : List (κ × α)) (k k'' : κ)
    (v : α) (hne : k'' ≠ k) : assocGet (d ++ [(k, v)]) k'' = assocGet d k'' := by
  induction d with
  | nil => simp [assocGet_cons, assocGet_nil, Ne.symm hne]
  | cons p d ih =>
    obtain ⟨k', v'⟩ := p
    rw [List.cons_append, assocGet_cons, assocGet_cons]
    by_cases h2 : k' = k'' <;> simp [h2, ih]

theorem assocGet_append_single_self {κ α : Type} [DecidableEq κ] (d : List (κ × α)) (k : κ)
    (v : α) (hhas : assocHas d k = false) : assocGet (d ++ [(k, v)]) k = some v := by
  induction d with
  | nil => simp [assocGet_cons]
  | cons p d ih =>
    obtain ⟨k', v'⟩ := p
    rw [assocHas_cons] at hhas
    simp only [Bool.or_eq_false_iff, beq_eq_false_iff_ne, ne_eq] at hhas
    rw [List.cons_append, assocGet_cons]
    simp [hhas.1, ih (by simp [hhas.2])]

theorem assocGet_assocSet_self {κ α : Type} [DecidableEq κ] (d : List (κ × α)) (k : κ) (v : α) :
    assocGet (assocSet d k v) k = some v := by
  unfold assocSet
  by_cases hhas : assocHas d k = true
  · rw [if_pos hhas]
    exact assocGet_map_replace_self d k v hhas
  · rw [if_neg hhas]
    exact assocGet_append_single_self d k v (Bool.not_eq_true _ ▸ hhas)

theorem assocGet_assocSet_ne {κ α : Type} [DecidableEq κ] (d : List (κ × α)) (k k'' : κ) (v : α)
    (hne : k'' ≠ k) : assocGet (assocSet d k v) k'' = assocGet d k'' := by
  unfold assocSet
  by_cases hhas : assocHas d k = true
  · rw [if_pos hhas]
    exact assocGet_map_replace_ne d k k'' v hne
  · rw [if_neg hhas]
    exact assocGet_append_single_ne d k k'' v hne

theorem mem_assocSet_key {κ α : Type} [DecidableEq κ] {d : List (κ × α)} {k : κ} {v v' : α}
    (h : (k, v') ∈ assocSet d k v) : v' = v := by
  unfold assocSet at h
  by_cases hhas : assocHas d k = true
  · rw [if_pos hhas] at h
    rw [List.mem_map] at h
    obtain ⟨p, hp, heq⟩ := h
    by_cases hk : p.1 = k
    · simp only [hk, beq_self_eq_true, if_true] at heq
      exact (Prod.ext_iff.mp heq).2.symm
    · simp only [beq_iff_eq, hk, if_false] at heq
      have : p.1 = k := by rw [heq]
      exact absurd this hk
  · rw [if_neg hhas] at h
    rw [List.mem_append] at h
    rcases h with h | h
    · have hfalse := Bool.not_eq_true _ ▸ hhas
      exact absurd rfl ((assocHas_eq_false_iff d k).mp hfalse (k, v') h)
    · rw [List.mem_singleton] at h
      exact (Prod.ext_iff.mp h).2

theorem foldl_assocSet_append {κ α : Type} [DecidableEq κ] :
    ∀ (d acc : List (κ × α)), (((acc ++ d).map Prod.fst).Nodup) →
      d.foldl (fun d' p => assocSet d' p.1 p.2) acc = acc ++ d := by
  intro d
  induction d with
  | nil => intro acc _; simp
  | cons p d ih =>
    intro acc h
    have h' : (acc.map Prod.fst ++ p.1 :: d.map Prod.fst).Nodup := by simpa using h
    have hdisj := (List.nodup_append.mp h').2.2
    have hnotmem : p.1 ∉ acc.map Prod.fst := fun hmem => hdisj hmem (List.mem_cons_self _ _)
    have hnot : assocHas acc p.1 = false := by
      rw [assocHas_eq_false_iff]
      intro q hq hqk
      exact hnotmem (hqk ▸ List.mem_map_of_mem Prod.fst hq)
    have h'' : (((acc ++ [p]) ++ d).map Prod.fst).Nodup := by
      rw [List.append_assoc, List.singleton_append]
      exact h
    rw [List.foldl_cons, assocSet_of_not_has _ hnot, ih (acc ++ [p]) h'']
    simp

theorem pyDict_self {κ α : Type} [DecidableEq κ] (d : List (κ × α))
    (h : (d.map Prod.fst).Nodup) : pyDict d = d := by
  have := foldl_assocSet_append d [] (by simpa using h)
  simpa [pyDict] using this

theorem mapOpt_length {α β : Type} (f : α → Option β) :
    ∀ (l : List α) (bs : List β), mapOpt f l = some bs → bs.length = l.length := by
  intro l
  induction l with
  | nil =>
    intro bs h
    simp only [mapOpt, Option.some.injEq] at h
    simp [← h]
  | cons a l ih =>
    intro bs h
    simp only [mapOpt] at h
    cases hfa : f a with
    | none => rw [hfa] at h; simp at h
    | some b =>
      rw [hfa] at h
      cases hml : mapOpt f l with
      | none => rw [hml] at h; simp at h
      | some bs' =>
        rw [hml] at h
        simp only [Option.map_some'] at h
        cases h
        simp [ih bs' hml]

theorem flattenItems_flat (d : List (String × PyVal))
    (h : d.all (fun p => !(p.2.isDict)) = true) : flattenItems d "" = d := by
  induction d with
  | nil => simp [flattenItems]
  | cons p d ih =>
    obtain ⟨k, v⟩ := p
    rw [List.all_cons] at h
    rw [Bool.and_eq_true] at h
    have h1 : v.isDict = false := by
      have := h.1
      simp only [Bool.not_eq_true'] at this
      exact this
    have h2 := ih h.2
    cases v <;> first
      | (exfalso; exact Bool.noConfusion ((rfl : PyVal.isDict (.dict _) = true) ▸ h1))
      | (simp [flattenItems, h2])

/-- C10: the flattened record's `id` field always equals the document id;
a source field whose flattened key is `id` is overwritten and its value
does not survive in the output. -/
theorem c10_flatten_id_overwrite (doc : DocSnapshot) :
    assocGet (flatten_document doc) "id" = some (PyVal.str doc.docId) ∧
    ∀ v, ("id", v) ∈ flatten_document doc → v = PyVal.str doc.docId := by
  constructor
  · exact assocGet_assocSet_self _ _ _
  · intro v hv
    exact mem_assocSet_key hv

/-- C7: flattening an already-flat record (no dict values, one entry per
key as in a Python dict) leaves every non-`id` binding unchanged, binds
`id` to the document id, and — when the record has no `id` field of its
own — returns exactly the record with `("id", docId)` appended. -/
theorem c7_flatten_idempotent_on_flat (doc : DocSnapshot)
    (hflat : doc.data.all (fun p => !(p.2.isDict)) = true)
    (hnodup : (doc.data.map Prod.fst).Nodup) :
    (∀ k, k ≠ "id" → assocGet (flatten_document doc) k = assocGet doc.data k) ∧
    assocGet (flatten_document doc) "id" = some (PyVal.str doc.docId) ∧
    (assocHas doc.data "id" = false →
      flatten_document doc = doc.data ++ [("id", PyVal.str doc.docId)]) := by
  have hfl : flatten_document doc = assocSet doc.data "id" (PyVal.str doc.docId) := by
    unfold flatten_document
    rw [flattenItems_flat doc.data hflat, pyDict_self doc.data hnodup]
  refine ⟨?_, ?_, ?_⟩
  · intro k hk
    rw [hfl]
    exact assocGet_assocSet_ne _ _ _ _ hk
  · rw [hfl]
    exact assocGet_assocSet_self _ _ _
  · intro hno
    rw [hfl]
    exact assocSet_of_not_has _ hno

theorem c7_witness :
    (∀ k, k ≠ "id" → assocGet (flatten_document docW7) k = assocGet docW7.data k) ∧
    assocGet (flatten_document docW7) "id" = some (PyVal.str docW7.docId) ∧
    (assocHas docW7.data "id" = false →
      flatten_document docW7 = docW7.data ++ [("id", PyVal.str docW7.docId)]) :=
  c7_flatten_idempotent_on_flat docW7 (by decide) (by decide)

theorem c10_witness :
    assocGet (flatten_document docW10) "id" = some (PyVal.str "D2") ∧
    PyVal.str "D2" = PyVal.str docW10.docId :=
  ⟨(c10_flatten_id_overwrite docW10).1,
   (c10_flatten_id_overwrite docW10).2 (PyVal.str "D2")
     (by
       have h := (c10_flatten_id_overwrite docW10).1
       have hs := (assocGet_isSome_eq_has (flatten_document docW10) "id")
       rw [h] at hs
       unfold assocGet at h
       cases hf : (flatten_document docW10).find? (fun p => p.1 == "id") with
       | none => rw [hf] at h; exact absurd h (by simp)
       | some p =>
         rw [hf] at h
         simp only [Option.map_some'] at h
         have hp := List.mem_of_find?_eq_some hf
         have hkey := List.find?_some hf
         obtain ⟨pk, pv⟩ := p
         simp only [beq_iff_eq] at hkey
         cases h
         rw [hkey] at hp
         exact hp)⟩

/-- C1 is refuted: resolution uses `dict.get` fallback, which prefers a
*present* `X.he` key even when its value is empty, so a survey with empty
`name.he` and `name.en = "Survey"` resolves to the empty name and is
excluded from the output. -/
theorem c1_counterexample :
    resolveLoc s1rec "name.he" "name.en" = PyVal.str "" ∧
    resolveLoc s1rec "name.he" "name.en" ≠ PyVal.str "Survey" ∧
    process_surveys [s1rec] = some [] := by decide

/-- C1 (amended): resolved value = value at `X.he` if that *key is
present* (even when the value is empty), else value at `X.en` if present,
else the empty string; resolution is total (never raises).  A survey with
`name.he` absent and `name.en = "Survey"` resolves to "Survey" and is
included.  (Question texts use the same rule via `resolveLoc` on the
nested text dict in `processQuestion`.) -/
theorem c1_amended_localized_preference :
    (∀ (r : PyRec) (heKey enKey : String),
      (∀ v, assocGet r heKey = some v → resolveLoc r heKey enKey = v) ∧
      (assocGet r heKey = none → ∀ v, assocGet r enKey = some v → resolveLoc r heKey enKey = v) ∧
      (assocGet r heKey = none → assocGet r enKey = none →
        resolveLoc r heKey enKey = PyVal.str "")) ∧
    process_surveys [s1brec] =
      some [(PyVal.str "s1",
        ⟨PyVal.str "Survey", PyVal.str "", "2024-01-01T00:00:00",
         [⟨PyVal.str "q1", PyVal.str "שאלה"⟩]⟩)] := by
  constructor
  · intro r heKey enKey
    refine ⟨?_, ?_, ?_⟩
    · intro v hv
      simp [resolveLoc, pyGetD, hv]
    · intro h1 v hv
      simp [resolveLoc, pyGetD, h1, hv]
    · intro h1 h2
      simp [resolveLoc, pyGetD, h1, h2]
  · decide

theorem c1_witness :
    resolveLoc [("x.he", PyVal.str "HE"), ("x.en", PyVal.str "EN")] "x.he" "x.en"
        = PyVal.str "HE" ∧
    resolveLoc [("x.en", PyVal.str "EN")] "x.he" "x.en" = PyVal.str "EN" ∧
    resolveLoc [] "x.he" "x.en" = PyVal.str "" :=
  ⟨(c1_amended_localized_preference.1 _ "x.he" "x.en").1 _ (by decide),
   (c1_amended_localized_preference.1 _ "x.he" "x.en").2.1 (by decide) _ (by decide),
   (c1_amended_localized_preference.1 _ "x.he" "x.en").2.2 (by decide) (by decide)⟩

/-- C2 is refuted in its middle clause: questions are never filtered, so
a survey whose every question lacks a resolvable id/text is *included*
(with placeholder `id None` / empty text), not excluded. -/
theorem c2_counterexample :
    process_surveys [s2rec] =
      some [(PyVal.str "s2",
        ⟨PyVal.str "N", PyVal.str "", "2024-01-01T00:00:00",
         [⟨PyVal.pynone, PyVal.str ""⟩]⟩)] ∧
    process_surveys [s2rec] ≠ some [] := by decide

/-- C2 (amended): the normalizer excludes (with no error) every survey
whose resolved name is falsy and every survey whose raw `questions`
value is the empty list (or absent); it does *not* filter questions — a
survey whose questions all lack id/text is still included, its question
count equal to the raw count. -/
theorem c2_amended_survey_exclusion (acc : List (PyVal × Survey)) (s : PyRec) (ss : List PyRec) :
    (truthy (resolveLoc s "name.he" "name.en") = false →
      processSurveysAux acc (s :: ss) = processSurveysAux acc ss) ∧
    (pyGetD s "questions" (PyVal.list []) = PyVal.list [] →
      processSurveysAux acc (s :: ss) = processSurveysAux acc ss) ∧
    (∀ qsRaw questions sid iso,
      truthy (resolveLoc s "name.he" "name.en") = true →
      pyGetD s "questions" (PyVal.list []) = PyVal.list qsRaw →
      mapOpt processQuestion qsRaw = some questions →
      questions ≠ [] →
      assocGet s "creationDateTime" = some (PyVal.ts iso) →
      assocGet s "id" = some sid →
      processSurveysAux acc (s :: ss) =
        processSurveysAux
          (assocSet acc sid
            ⟨resolveLoc s "name.he" "name.en",
             resolveLoc s "description.he" "description.en", iso, questions⟩) ss ∧
      questions.length = qsRaw.length) := by
  refine ⟨?_, ?_, ?_⟩
  · intro hname
    simp [processSurveysAux, hname]
  · intro hqs
    by_cases hname : truthy (resolveLoc s "name.he" "name.en") = false
    · simp [processSurveysAux, hname]
    · rw [Bool.not_eq_false] at hname
      simp [processSurveysAux, hname, hqs, mapOpt]
  · intro qsRaw questions sid iso hname hqs hmap hne hcdt hid
    constructor
    · have hemp : questions.isEmpty = false := by
        cases questions with
        | nil => exact absurd rfl hne
        | cons q qs => rfl
      simp [processSurveysAux, hname, hqs, hmap, hemp, hcdt, hid]
    · exact mapOpt_length processQuestion qsRaw questions hmap

theorem c2_witness :
    processSurveysAux [] [c2recA] = processSurveysAux [] [] ∧
    processSurveysAux [] [c2recB] = processSurveysAux [] [] ∧
    (processSurveysAux [] [s2rec] =
       processSurveysAux
         (assocSet [] (PyVal.str "s2")
           ⟨resolveLoc s2rec "name.he" "name.en",
            resolveLoc s2rec "description.he" "description.en",
            "2024-01-01T00:00:00", [⟨PyVal.pynone, PyVal.str ""⟩]⟩) [] ∧
     ([⟨PyVal.pynone, PyVal.str ""⟩] : List Question).length = [PyVal.dict []].length) :=
  ⟨(c2_amended_survey_exclusion [] c2recA []).1 (by decide),
   (c2_amended_survey_exclusion [] c2recB []).2.1 (by decide),
   (c2_amended_survey_exclusion [] s2rec []).2.2 [PyVal.dict []]
     [⟨PyVal.pynone, PyVal.str ""⟩] (PyVal.str "s2") "2024-01-01T00:00:00"
     (by decide) (by decide) (by decide) (by decide) (by decide) (by decide)⟩

theorem filterAnswers_some (qid : PyVal) :
    ∀ ras : List PyVal,
      (∀ a ∈ ras, ∃ ad, a = PyVal.dict ad ∧ (assocGet ad "questionId").isSome = true) →
      ∃ ms, filterAnswers ras qid = some ms ∧ ∀ a ∈ ms, a ∈ ras := by
  intro ras
  induction ras with
  | nil => intro _; exact ⟨[], rfl, by simp⟩
  | cons a rest ih =>
    intro h
    obtain ⟨ad, rfl, hq⟩ := h a (by simp)
    obtain ⟨v, hv⟩ := Option.isSome_iff_exists.mp hq
    obtain ⟨ms, hms, hsub⟩ := ih (fun a ha => h a (by simp [ha]))
    refine ⟨if v = qid then PyVal.dict ad :: ms else ms, ?_, ?_⟩
    · simp only [filterAnswers, hv, hms]
    · by_cases hvq : v = qid
      · simp only [hvq, if_true]
        intro a ha
        rcases List.mem_cons.mp ha with h1 | h1
        · simp [h1]
        · simp [hsub a h1]
      · simp only [hvq, if_false]
        intro a ha
        simp [hsub a ha]

theorem answerLoop_isSome (ras : List PyVal)
    (h : ∀ a ∈ ras, ∃ ad, a = PyVal.dict ad ∧ (assocGet ad "questionId").isSome = true ∧
      (assocGet ad "response").isSome = true) :
    ∀ (qs : List Question) (acc : Row), (answerLoop qs ras acc).isSome = true := by
  intro qs
  induction qs with
  | nil => intro acc; rfl
  | cons q qs ih =>
    intro acc
    obtain ⟨ms, hms, hsub⟩ :=
      filterAnswers_some q.id ras (fun a ha => by
        obtain ⟨ad, h1, h2, _⟩ := h a ha
        exact ⟨ad, h1, h2⟩)
    rcases ms with _ | ⟨a, _ | ⟨b, ms⟩⟩
    · simp only [answerLoop, hms]
      exact ih acc
    · obtain ⟨ad, rfl, _, hresp⟩ := h a (hsub a (by simp))
      obtain ⟨v, hv⟩ := Option.isSome_iff_exists.mp hresp
      simp only [answerLoop, hms, hv]
      exact ih _
    · simp only [answerLoop, hms]
      exact ih acc

theorem answersOK_spec (r : PyRec) (h : answersOK r = true) :
    ∃ ras, pyGetD r "responses" (PyVal.list []) = PyVal.list ras ∧
      ∀ a ∈ ras, ∃ ad, a = PyVal.dict ad ∧ (assocGet ad "questionId").isSome = true ∧
        (assocGet ad "response").isSome = true := by
  unfold answersOK at h
  cases hr : pyGetD r "responses" (PyVal.list []) <;> rw [hr] at h
  case list ras =>
    refine ⟨ras, rfl, ?_⟩
    rw [List.all_eq_true] at h
    intro a ha
    have ha' := h a ha
    cases a
    case dict ad =>
      rw [Bool.and_eq_true] at ha'
      exact ⟨ad, rfl, ha'.1, ha'.2⟩
    all_goals exact absurd ha' (by simp)
  all_goals exact absurd h (by simp)

theorem rowOf_isSome (sv : Survey) (r : PyRec)
    (hts : isTsOpt (assocGet r "submittedTs") = true)
    (hlat : assocHas r "coordinates.latitude" = true)
    (hlon : (assocGet r "coordinates.longitude").isSome = true)
    (hans : answersOK r = true) : (rowOf sv r).isSome = true := by
  obtain ⟨lonv, hlonv⟩ := Option.isSome_iff_exists.mp hlon
  have hlat' : (assocGet r "coordinates.latitude").isSome = true := by
    rw [assocGet_isSome_eq_has]; exact hlat
  obtain ⟨latv, hlatv⟩ := Option.isSome_iff_exists.mp hlat'
  obtain ⟨ras, hras, hall⟩ := answersOK_spec r hans
  unfold rowOf
  cases htsv : assocGet r "submittedTs" with
  | none => rw [htsv] at hts; exact absurd hts (by simp [isTsOpt])
  | some tv =>
    rw [htsv] at hts
    cases tv
    case ts iso =>
      rw [hlatv, hlonv, hras]
      exact answerLoop_isSome ras hall sv.questions _
    all_goals exact absurd hts (by simp [isTsOpt])

theorem rowOf_none (sv : Survey) (r : PyRec)
    (hmiss : assocGet r "coordinates.longitude" = none ∨ assocGet r "submittedTs" = none) :
    rowOf sv r = none := by
  unfold rowOf
  cases hts : assocGet r "submittedTs" with
  | none => rfl
  | some tv =>
    have hlon : assocGet r "coordinates.longitude" = none := by
      rcases hmiss with h | h
      · exact h
      · rw [hts] at h; exact absurd h (by simp)
    cases tv <;> try rfl
    case ts iso =>
      cases hlat : assocGet r "coordinates.latitude" with
      | none => rfl
      | some latv => rw [hlon]

theorem processResponsesAux_eq_mapOpt (sv : Survey) (sid : PyVal) :
    ∀ responses : List PyRec, (∀ r ∈ responses, respOK sid r = true) →
      processResponsesAux sv sid responses =
        mapOpt (rowOf sv) (responses.filter (isValidResp sid)) ∧
      (processResponsesAux sv sid responses).isSome = true := by
  intro responses
  induction responses with
  | nil => intro _; exact ⟨rfl, rfl⟩
  | cons r rest ih =>
    intro h
    have hr := h r (by simp)
    obtain ⟨heq, hsome⟩ := ih (fun x hx => h x (by simp [hx]))
    unfold respOK at hr
    rw [Bool.and_eq_true] at hr
    obtain ⟨v, hv⟩ := Option.isSome_iff_exists.mp hr.1
    have h2 := hr.2
    rw [hv] at h2
    by_cases hmatch : v = sid
    · subst hmatch
      rw [if_pos (by simp)] at h2
      by_cases hlat : assocHas r "coordinates.latitude" = true
      · rw [if_pos hlat] at h2
        rw [Bool.and_eq_true, Bool.and_eq_true] at h2
        have hrowS := rowOf_isSome sv r h2.1.1 hlat h2.1.2 h2.2
        obtain ⟨row, hrow⟩ := Option.isSome_iff_exists.mp hrowS
        have hvalid : isValidResp v r = true := by
          simp [isValidResp, hv, hlat]
        rw [List.filter_cons_of_pos hvalid]
        constructor
        · simp only [processResponsesAux, hv, beq_self_eq_true, if_true, hlat, hrow,
            mapOpt, heq]
        · simp only [processResponsesAux, hv, beq_self_eq_true, if_true, hlat, hrow]
          obtain ⟨rows, hrows⟩ := Option.isSome_iff_exists.mp hsome
          rw [hrows]
          rfl
      · rw [Bool.not_eq_true] at hlat
        rw [if_neg (by rw [hlat]; exact Bool.noConfusion)] at h2
        obtain ⟨idv, hidv⟩ := Option.isSome_iff_exists.mp h2
        have hvalid : isValidResp v r = false := by
          simp [isValidResp, hv, hlat]
        rw [List.filter_cons_of_neg (by rw [hvalid]; exact Bool.noConfusion)]
        constructor
        · simp only [processResponsesAux, hv, beq_self_eq_true, if_true, hlat, hidv]
          rw [if_neg (by exact Bool.noConfusion)]
          exact heq
        · simp only [processResponsesAux, hv, beq_self_eq_true, if_true, hlat, hidv]
          rw [if_neg (by exact Bool.noConfusion)]
          exact hsome
    · have hcond : (v == sid) = false := by simp [hmatch]
      have hvalid : isValidResp sid r = false := by
        simp [isValidResp, hv, hmatch]
      rw [List.filter_cons_of_neg (by rw [hvalid]; exact Bool.noConfusion)]
      constructor
      · simp only [processResponsesAux, hv, hcond]
        rw [if_neg (by exact Bool.noConfusion)]
        exact heq
      · simp only [processResponsesAux, hv, hcond]
        rw [if_neg (by exact Bool.noConfusion)]
        exact hsome

theorem processResponsesAux_none (sv : Survey) (sid : PyVal) :
    ∀ (responses : List PyRec) (r : PyRec), r ∈ responses →
      assocGet r "surveyId" = some sid →
      assocHas r "coordinates.latitude" = true →
      (assocGet r "coordinates.longitude" = none ∨ assocGet r "submittedTs" = none) →
      processResponsesAux sv sid responses = none := by
  intro responses
  induction responses with
  | nil => intro r hmem; exact absurd hmem (by simp)
  | cons r0 rest ih =>
    intro r hmem hsid hlat hmiss
    rcases List.mem_cons.mp hmem with rfl | hmem'
    · simp only [processResponsesAux, hsid, beq_self_eq_true, if_true, hlat,
        rowOf_none sv r hmiss]
    · have htail := ih r hmem' hsid hlat hmiss
      cases hg : assocGet r0 "surveyId" with
      | none => simp only [processResponsesAux, hg]
      | some rsid =>
        simp only [processResponsesAux, hg]
        by_cases hm : (rsid == sid) = true
        · rw [if_pos hm]
          by_cases hl : assocHas r0 "coordinates.latitude" = true
          · rw [if_pos hl]
            cases hrow : rowOf sv r0 with
            | none => simp only [hrow]
            | some row =>
              simp only [hrow, htail]
              rfl
          · rw [if_neg hl]
            cases hid : assocGet r0 "id" with
            | none => simp only [hid]
            | some idv =>
              simp only [hid]
              exact htail
        · rw [if_neg hm]
          exact htail

/-- C3: for well-formed responses the joiner succeeds, and the produced
rows are exactly the rows of the responses whose `surveyId` matches the
target and which carry a `coordinates.latitude` field, in response
iteration order; in particular the row count equals the count of such
responses. -/
theorem c3_row_count (sv : Survey) (sid : PyVal) (responses : List PyRec)
    (h : ∀ r ∈ responses, respOK sid r = true) :
    ∃ rows, process_responses responses sid sv = some (mkHeaders sv, rows) ∧
      mapOpt (rowOf sv) (responses.filter (isValidResp sid)) = some rows ∧
      rows.length = (responses.filter (isValidResp sid)).length := by
  obtain ⟨heq, hsome⟩ := processResponsesAux_eq_mapOpt sv sid responses h
  obtain ⟨rows, hrows⟩ := Option.isSome_iff_exists.mp hsome
  refine ⟨rows, ?_, ?_, ?_⟩
  · simp [process_responses, hrows]
  · rw [← heq]
    exact hrows
  · exact mapOpt_length _ _ _ (heq ▸ hrows)

theorem c3_witness :
    ∃ rows, process_responses [rw3a, rw3b] (PyVal.str "s1") svW = some (mkHeaders svW, rows) ∧
      mapOpt (rowOf svW) (([rw3a, rw3b] : List PyRec).filter (isValidResp (PyVal.str "s1")))
        = some rows ∧
      rows.length =
        (([rw3a, rw3b] : List PyRec).filter (isValidResp (PyVal.str "s1"))).length :=
  c3_row_count svW (PyVal.str "s1") [rw3a, rw3b] (by decide)

/-- C9: the joiner guards only the latitude field — a response whose
`surveyId` matches and which has `coordinates.latitude` but lacks
`coordinates.longitude` (or `submittedTs`) makes the joiner raise
(`none`), it is not skipped as a dropped row. -/
theorem c9_unguarded_lookups (sv : Survey) (sid : PyVal) (responses : List PyRec) (r : PyRec)
    (hmem : r ∈ responses) (hsid : assocGet r "surveyId" = some sid)
    (hlat : assocHas r "coordinates.latitude" = true)
    (hmiss : assocGet r "coordinates.longitude" = none ∨ assocGet r "submittedTs" = none) :
    process_responses responses sid sv = none := by
  rw [process_responses, processResponsesAux_none sv sid responses r hmem hsid hlat hmiss]
  rfl

theorem c9_witness : process_responses [r9rec] (PyVal.str "s1") svW = none :=
  c9_unguarded_lookups svW (PyVal.str "s1") [r9rec] r9rec (by decide) (by decide)
    (by decide) (Or.inl (by decide))

theorem answerLoop_append (ras : List PyVal) (l2 : List Question) :
    ∀ (l1 : List Question) (acc row : Row), answerLoop (l1 ++ l2) ras acc = some row →
      ∃ mid, answerLoop l1 ras acc = some mid ∧ answerLoop l2 ras mid = some row := by
  intro l1
  induction l1 with
  | nil => intro acc row h; exact ⟨acc, rfl, h⟩
  | cons q l1 ih =>
    intro acc row h
    rw [List.cons_append] at h
    cases hms : filterAnswers ras q.id with
    | none =>
      simp only [answerLoop, hms] at h
      exact Option.noConfusion h
    | some ms =>
      rcases ms with _ | ⟨a, _ | ⟨b, ms⟩⟩
      · simp only [answerLoop, hms] at h ⊢
        exact ih acc row h
      · cases a
        all_goals try (simp only [answerLoop, hms] at h; exact Option.noConfusion h)
        case dict ad =>
          cases hresp : assocGet ad "response" with
          | none =>
            simp only [answerLoop, hms, hresp] at h
            exact Option.noConfusion h
          | some v =>
            simp only [answerLoop, hms, hresp] at h ⊢
            exact ih _ row h
      · simp only [answerLoop, hms] at h ⊢
        exact ih acc row h

theorem answerLoop_get_notin (ras : List PyVal) (k : PyVal) :
    ∀ (qs : List Question) (acc row : Row), (∀ q' ∈ qs, q'.text ≠ k) →
      answerLoop qs ras acc = some row → assocGet row k = assocGet acc k := by
  intro qs
  induction qs with
  | nil =>
    intro acc row _ h
    simp only [answerLoop, Option.some.injEq] at h
    rw [← h]
  | cons q qs ih =>
    intro acc row hnot h
    cases hms : filterAnswers ras q.id with
    | none =>
      simp only [answerLoop, hms] at h
      exact Option.noConfusion h
    | some ms =>
      rcases ms with _ | ⟨a, _ | ⟨b, ms⟩⟩
      · simp only [answerLoop, hms] at h
        exact ih acc row (fun x hx => hnot x (by simp [hx])) h
      · cases a
        all_goals try (simp only [answerLoop, hms] at h; exact Option.noConfusion h)
        case dict ad =>
          cases hresp : assocGet ad "response" with
          | none =>
            simp only [answerLoop, hms, hresp] at h
            exact Option.noConfusion h
          | some v =>
            simp only [answerLoop, hms, hresp] at h
            have hk : k ≠ q.text := Ne.symm (hnot q (by simp))
            rw [ih _ row (fun x hx => hnot x (by simp [hx])) h]
            exact assocGet_assocSet_ne acc q.text k (pyStr v) hk
      · simp only [answerLoop, hms] at h
        exact ih acc row (fun x hx => hnot x (by simp [hx])) h

theorem filter_length_one_split {α : Type} (p : α → Bool) :
    ∀ (l : List α) (a : α), a ∈ l → p a = true → (l.filter p).length = 1 →
      ∃ l1 l2, l = l1 ++ a :: l2 ∧ (∀ x ∈ l1, p x = false) ∧ (∀ x ∈ l2, p x = false) := by
  intro l
  induction l with
  | nil => intro a hmem; exact absurd hmem (by simp)
  | cons b l ih =>
    intro a hmem hpa hlen
    by_cases hpb : p b = true
    · rw [List.filter_cons_of_pos hpb] at hlen
      rw [List.length_cons] at hlen
      have hlen0 : (l.filter p).length = 0 := by omega
      have hfilnil : l.filter p = [] := List.length_eq_zero.mp hlen0
      have hfl : ∀ x ∈ l, p x = false := by
        intro x hx
        by_cases hpx : p x = true
        · exact absurd (List.mem_filter.mpr ⟨hx, hpx⟩) (by simp [hfilnil])
        · rw [Bool.not_eq_true] at hpx
          exact hpx
      rcases List.mem_cons.mp hmem with rfl | hmem'
      · exact ⟨[], l, rfl, by simp, hfl⟩
      · rw [hfl a hmem'] at hpa
        exact Bool.noConfusion hpa
    · rw [List.filter_cons_of_neg hpb] at hlen
      rcases List.mem_cons.mp hmem with rfl | hmem'
      · rw [hpa] at hpb
        exact absurd rfl hpb
      · obtain ⟨l1, l2, rfl, h1, h2⟩ := ih a hmem' hpa hlen
        refine ⟨b :: l1, l2, rfl, ?_, h2⟩
        intro x hx
        rcases List.mem_cons.mp hx with rfl | hx'
        · rw [Bool.not_eq_true] at hpb
          exact hpb
        · exact h1 x hx'

theorem rowOf_inv (sv : Survey) (r : PyRec) (row : Row) (h : rowOf sv r = some row) :
    ∃ iso latv lonv ras,
      assocGet r "submittedTs" = some (PyVal.ts iso) ∧
      assocGet r "coordinates.latitude" = some latv ∧
      assocGet r "coordinates.longitude" = some lonv ∧
      pyGetD r "responses" (PyVal.list []) = PyVal.list ras ∧
      respAnswers r = ras ∧
      answerLoop sv.questions ras
        [(PyVal.str "time", iso), (PyVal.str "lat", pyStr latv), (PyVal.str "lon", pyStr lonv)]
        = some row := by
  unfold rowOf at h
  cases hts : assocGet r "submittedTs" with
  | none =>
    simp only [hts] at h
    exact Option.noConfusion h
  | some tv =>
    cases tv
    all_goals try (simp only [hts] at h; exact Option.noConfusion h)
    case ts iso =>
      simp only [hts] at h
      cases hlat : assocGet r "coordinates.latitude" with
      | none =>
        simp only [hlat] at h
        exact Option.noConfusion h
      | some latv =>
        simp only [hlat] at h
        cases hlon : assocGet r "coordinates.longitude" with
        | none =>
          simp only [hlon] at h
          exact Option.noConfusion h
        | some lonv =>
          simp only [hlon] at h
          cases hra : pyGetD r "responses" (PyVal.list []) with
          | list ras =>
            simp only [hra] at h
            exact ⟨iso, latv, lonv, ras, rfl, rfl, rfl, rfl,
              by simp [respAnswers, hra], h⟩
          | _ =>
            simp only [hra] at h
            exact Option.noConfusion h

/-- C4 is refuted: the row is keyed by question *text*, and the fixed
`time`/`lat`/`lon` keys (or another question with the same text) can
collide with it.  Here the survey's only question has text `time` and
zero matching answers, yet the row *does* carry a value at that
question's text key. -/
theorem c4_counterexample :
    process_responses [r4rec] (PyVal.str "s1") sv4 =
      some (mkHeaders sv4,
        [[(PyVal.str "time", "2024-01-02T03:04:05"), (PyVal.str "lat", "31"),
          (PyVal.str "lon", "34")]]) ∧
    assocGet [(PyVal.str "time", "2024-01-02T03:04:05"), (PyVal.str "lat", "31"),
        (PyVal.str "lon", "34")] (PyVal.str "time") = some "2024-01-02T03:04:05" ∧
    filterAnswers (respAnswers r4rec) (PyVal.str "q1") = some [] := by decide

/-- C4 (amended): for a question whose text differs from `time`, `lat`,
`lon` and is carried by no other question of the survey, the row of a
valid response has a value at that question's text key iff exactly one
entry of the response's answer list matches its question id, the value
being the string-cast `response` field of that entry; with zero or two
or more matches the key is absent and no error is raised. -/
theorem c4_amended_unique_answer (sv : Survey) (r : PyRec) (row : Row) (q : Question)
    (hrow : rowOf sv r = some row) (hq : q ∈ sv.questions)
    (huniq : (sv.questions.filter (fun q' => q'.text == q.text)).length = 1)
    (ht : q.text ≠ PyVal.str "time") (hlt : q.text ≠ PyVal.str "lat")
    (hln : q.text ≠ PyVal.str "lon") :
    ∃ ms, filterAnswers (respAnswers r) q.id = some ms ∧
      ((assocGet row q.text).isSome = true ↔ ms.length = 1) ∧
      (∀ ad v, ms = [PyVal.dict ad] → assocGet ad "response" = some v →
        assocGet row q.text = some (pyStr v)) := by
  obtain ⟨iso, latv, lonv, ras, hts, hlat, hlon, hra, hrespans, hloop⟩ := rowOf_inv sv r row hrow
  rw [hrespans]
  obtain ⟨l1, l2, hsplit, hfl1, hfl2⟩ :=
    filter_length_one_split (fun q' => q'.text == q.text) sv.questions q hq (by simp) huniq
  have hne1 : ∀ x ∈ l1, x.text ≠ q.text := by
    intro x hx
    have := hfl1 x hx
    simpa using this
  have hne2 : ∀ x ∈ l2, x.text ≠ q.text := by
    intro x hx
    have := hfl2 x hx
    simpa using this
  rw [hsplit] at hloop
  obtain ⟨mid, hmid, hrest⟩ := answerLoop_append ras (q :: l2) l1 _ row hloop
  have hmidget : assocGet mid q.text = none := by
    rw [answerLoop_get_notin ras q.text l1 _ mid hne1 hmid]
    simp [assocGet_cons, assocGet_nil, Ne.symm ht, Ne.symm hlt, Ne.symm hln]
  cases hms : filterAnswers ras q.id with
  | none =>
    simp only [answerLoop, hms] at hrest
    exact Option.noConfusion hrest
  | some ms =>
    refine ⟨ms, rfl, ?_⟩
    rcases ms with _ | ⟨a, _ | ⟨b, ms'⟩⟩
    · simp only [answerLoop, hms] at hrest
      rw [answerLoop_get_notin ras q.text l2 mid row hne2 hrest, hmidget]
      constructor
      · constructor
        · intro hh
          exact absurd hh (by simp)
        · intro hh
          exact absurd hh (by simp)
      · intro ad v habs
        exact absurd habs (by simp)
    · cases a
      all_goals try (simp only [answerLoop, hms] at hrest; exact Option.noConfusion hrest)
      case dict ad =>
        cases hresp : assocGet ad "response" with
        | none =>
          simp only [answerLoop, hms, hresp] at hrest
          exact Option.noConfusion hrest
        | some v =>
          simp only [answerLoop, hms, hresp] at hrest
          have hget : assocGet row q.text = assocGet (assocSet mid q.text (pyStr v)) q.text :=
            answerLoop_get_notin ras q.text l2 _ row hne2 hrest
          rw [hget, assocGet_assocSet_self]
          constructor
          · simp
          · intro ad' v' hms' hresp'
            have had : ad = ad' := by simpa using hms'
            subst had
            rw [hresp] at hresp'
            have hv : v = v' := by simpa using hresp'
            rw [hv]
    · simp only [answerLoop, hms] at hrest
      rw [answerLoop_get_notin ras q.text l2 mid row hne2 hrest, hmidget]
      constructor
      · constructor
        · intro hh
          exact absurd hh (by simp)
        · intro hh
          simp only [List.length_cons] at hh
          omega
      · intro ad v habs
        exact absurd habs (by simp)

theorem c4_witness :
    ∃ ms, filterAnswers (respAnswers rw3a) (PyVal.str "q1") = some ms ∧
      ((assocGet rowW (PyVal.str "Q")).isSome = true ↔ ms.length = 1) ∧
      (∀ ad v, ms = [PyVal.dict ad] → assocGet ad "response" = some v →
        assocGet rowW (PyVal.str "Q") = some (pyStr v)) :=
  c4_amended_unique_answer svW rw3a rowW ⟨PyVal.str "q1", PyVal.str "Q"⟩ (by decide)
    (by decide) (by decide) (by decide) (by decide) (by decide)

/-- C6: every produced detail sheet has its header row plus one row per
response; every row (header included) has exactly one cell per declared
header, and a header absent from a row's mapping is written as the empty
string, never left as a missing cell. -/
theorem c6_detail_sheet_rectangular (surveys : List (PyVal × Survey)) (sheets : List SheetData)
    (nm : PyVal) (hs : List PyVal) (rows : List Row)
    (hmem : (nm, hs, rows) ∈ sheets) :
    ∃ g, (nm, g) ∈ write_to_excel surveys sheets ∧
      g.head? = some hs ∧
      g.length = rows.length + 1 ∧
      (∀ rw ∈ g, rw.length = hs.length) ∧
      (∀ i (hi : i < rows.length),
        g[i + 1]? =
          some (hs.map (fun h => PyVal.str ((assocGet (rows.get ⟨i, hi⟩) h).getD "")))) := by
  refine ⟨detailGrid hs rows, ?_, rfl, by simp [detailGrid], ?_, ?_⟩
  · unfold write_to_excel
    apply List.mem_cons_of_mem
    exact List.mem_map.mpr ⟨(nm, hs, rows), hmem, rfl⟩
  · intro rw hrw
    rcases List.mem_cons.mp hrw with rfl | hrw'
    · rfl
    · obtain ⟨row, hrowmem, rfl⟩ := List.mem_map.mp hrw'
      simp
  · intro i hi
    simp [detailGrid, List.getElem?_map, List.getElem?_eq_getElem, hi, pyGetD,
      List.get_eq_getElem]

theorem c6_witness :
    ∃ g, (PyVal.str "S", g) ∈ write_to_excel [] [(PyVal.str "S", hsW6, rowsW6)] ∧
      g.head? = some hsW6 ∧
      g.length = rowsW6.length + 1 ∧
      (∀ rw ∈ g, rw.length = hsW6.length) ∧
      (∀ i (hi : i < rowsW6.length),
        g[i + 1]? =
          some (hsW6.map (fun h => PyVal.str ((assocGet (rowsW6.get ⟨i, hi⟩) h).getD "")))) :=
  c6_detail_sheet_rectangular [] [(PyVal.str "S", hsW6, rowsW6)] (PyVal.str "S") hsW6 rowsW6
    (by decide)

theorem buildSheetsAux_mem (responses : List PyRec) :
    ∀ (l : List (PyVal × Survey)) (acc out : List SheetData),
      buildSheetsAux responses acc l = some out →
      ∀ sh ∈ out, sh ∈ acc ∨
        ∃ p ∈ l, sh.1 = p.2.name ∧
          ∃ hs rows, process_responses responses p.1 p.2 = some (hs, rows) ∧ rows ≠ [] := by
  intro l
  induction l with
  | nil =>
    intro acc out h sh hsh
    simp only [buildSheetsAux, Option.some.injEq] at h
    rw [← h] at hsh
    exact Or.inl hsh
  | cons p rest ih =>
    intro acc out h sh hsh
    obtain ⟨sid, sv⟩ := p
    cases hpr : process_responses responses sid sv with
    | none =>
      simp only [buildSheetsAux, hpr] at h
      exact Option.noConfusion h
    | some pr =>
      obtain ⟨hs, rows⟩ := pr
      simp only [buildSheetsAux, hpr] at h
      by_cases hemp : rows.isEmpty = true
      · rw [if_pos hemp] at h
        rcases ih acc out h sh hsh with h1 | ⟨p', hp', h2⟩
        · exact Or.inl h1
        · exact Or.inr ⟨p', by simp [hp'], h2⟩
      · rw [if_neg hemp] at h
        rcases ih (acc ++ [(sv.name, hs, rows)]) out h sh hsh with h1 | ⟨p', hp', h2⟩
        · rcases List.mem_append.mp h1 with h2 | h2
          · exact Or.inl h2
          · rw [List.mem_singleton] at h2
            refine Or.inr ⟨(sid, sv), by simp, by rw [h2], hs, rows, hpr, ?_⟩
            intro hcon
            rw [hcon] at hemp
            exact hemp rfl
        · exact Or.inr ⟨p', by simp [hp'], h2⟩

/-- C5: the summary sheet has the fixed header row plus exactly one row
per survey in iteration order; its fifth cell counts the collected
sheets whose name equals that survey's name.  A survey all of whose
same-named surveys produce zero joined rows gets no detail sheet and a
response count of 0 in the summary. -/
theorem c5_summary_rows (surveys : List (PyVal × Survey)) (responses : List PyRec)
    (sheets : List SheetData) (sid : PyVal) (sv : Survey)
    (hsheets : buildSheets surveys responses = some sheets)
    (hmem : (sid, sv) ∈ surveys)
    (hall : ∀ p ∈ surveys, p.2.name = sv.name →
      process_responses responses p.1 p.2 = some (mkHeaders p.2, [])) :
    ∃ grid, (write_to_excel surveys sheets).head? = some (PyVal.str "סקרים", grid) ∧
      grid.length = surveys.length + 1 ∧
      (∀ i (hi : i < surveys.length),
        grid[i + 1]? = some (summaryRow sheets (surveys.get ⟨i, hi⟩).2) ∧
        (summaryRow sheets (surveys.get ⟨i, hi⟩).2).length = 5 ∧
        (summaryRow sheets (surveys.get ⟨i, hi⟩).2)[4]? =
          some (PyVal.int
            (((sheets.filter (fun sh => sh.1 == (surveys.get ⟨i, hi⟩).2.name)).length : Int)))) ∧
      (∀ sh ∈ sheets, sh.1 ≠ sv.name) ∧
      (∀ p ∈ (write_to_excel surveys sheets).drop 1, p.1 ≠ sv.name) ∧
      (∀ i (hi : i < surveys.length), (surveys.get ⟨i, hi⟩).2.name = sv.name →
        (summaryRow sheets (surveys.get ⟨i, hi⟩).2)[4]? = some (PyVal.int 0)) := by
  have hnames : ∀ sh ∈ sheets, sh.1 ≠ sv.name := by
    intro sh hsh
    rcases buildSheetsAux_mem responses surveys [] sheets hsheets sh hsh with h1 | h1
    · exact absurd h1 (by simp)
    · obtain ⟨p, hp, heq, hs, rows, hpr, hrows⟩ := h1
      intro hcon
      have := hall p hp (by rw [← heq, hcon])
      rw [this] at hpr
      have : rows = [] := by
        have h2 := hpr
        simp only [Option.some.injEq, Prod.mk.injEq] at h2
        exact h2.2.symm
      exact hrows this
  refine ⟨summaryHeader :: surveys.map (fun p => summaryRow sheets p.2),
    by simp [write_to_excel], by simp, ?_, hnames, ?_, ?_⟩
  · intro i hi
    refine ⟨?_, rfl, rfl⟩
    simp [List.getElem?_map, List.getElem?_eq_getElem, hi, List.get_eq_getElem]
  · intro p hp
    simp only [write_to_excel, List.drop_one, List.tail_cons] at hp
    obtain ⟨sh, hsh, rfl⟩ := List.mem_map.mp hp
    exact hnames sh hsh
  · intro i hi hname
    have hfil : sheets.filter (fun sh => sh.1 == (surveys.get ⟨i, hi⟩).2.name) = [] := by
      rw [List.filter_eq_nil_iff]
      intro a hmem2
      simp only [beq_iff_eq]
      rw [hname]
      exact hnames a hmem2
    simp only [summaryRow, hfil, List.length_nil]
    simp

theorem c5_witness :
    ∃ grid, (write_to_excel [(PyVal.str "s1", svW)] []).head? = some (PyVal.str "סקרים", grid) ∧
      grid.length = [(PyVal.str "s1", svW)].length + 1 ∧
      (∀ i (hi : i < [(PyVal.str "s1", svW)].length),
        grid[i + 1]? = some (summaryRow [] ([(PyVal.str "s1", svW)].get ⟨i, hi⟩).2) ∧
        (summaryRow [] ([(PyVal.str "s1", svW)].get ⟨i, hi⟩).2).length = 5 ∧
        (summaryRow [] ([(PyVal.str "s1", svW)].get ⟨i, hi⟩).2)[4]? =
          some (PyVal.int
            ((([] : List SheetData).filter
              (fun sh => sh.1 == ([(PyVal.str "s1", svW)].get ⟨i, hi⟩).2.name)).length : Int))) ∧
      (∀ sh ∈ ([] : List SheetData), sh.1 ≠ svW.name) ∧
      (∀ p ∈ (write_to_excel [(PyVal.str "s1", svW)] []).drop 1, p.1 ≠ svW.name) ∧
      (∀ i (hi : i < [(PyVal.str "s1", svW)].length),
        ([(PyVal.str "s1", svW)].get ⟨i, hi⟩).2.name = svW.name →
        (summaryRow [] ([(PyVal.str "s1", svW)].get ⟨i, hi⟩).2)[4]? = some (PyVal.int 0)) :=
  c5_summary_rows [(PyVal.str "s1", svW)] [] [] (PyVal.str "s1") svW (by decide) (by decide)
    (by decide)

theorem foldl_truthy_eq (cells : List PyVal) :
    ∀ a : Nat, (∀ c ∈ cells, truthy c = false → (pyStr c).length ≤ a) →
      cells.foldl (fun m c => if truthy c then max m (pyStr c).length else m) a =
      cells.foldl (fun m c => max m (pyStr c).length) a := by
  induction cells with
  | nil => intro a _; rfl
  | cons c cells ih =>
    intro a h
    rw [List.foldl_cons, List.foldl_cons]
    by_cases hc : truthy c = true
    · rw [if_pos hc]
      exact ih _ (fun c' hc' hf => le_trans (h c' (by simp [hc']) hf) (Nat.le_max_left _ _))
    · rw [Bool.not_eq_true] at hc
      rw [if_neg (by rw [hc]; exact Bool.noConfusion)]
      have hle : (pyStr c).length ≤ a := h c (by simp) hc
      rw [Nat.max_eq_left hle]
      exact ih a (fun c' hc' hf => h c' (by simp [hc']) hf)

theorem codeMaxLen_eq_of_strings (cells : List PyVal)
    (h : ∀ c ∈ cells, c.isStr = true) : codeMaxLen cells = specMaxLen cells := by
  unfold codeMaxLen specMaxLen
  apply foldl_truthy_eq
  intro c hc hf
  rcases c with s | n | ⟨r0, t0⟩ | i0 | _ | xs | d
  · simp only [truthy] at hf
    have hs : s = "" := by simpa using hf
    simp [pyStr, hs]
  all_goals exact absurd (h _ hc) (by simp [PyVal.isStr])

theorem codeMaxLen_cons_eq (hd : PyVal) (cells : List PyVal)
    (hhd : truthy hd = true)
    (h : ∀ c ∈ cells, truthy c = false → (pyStr c).length ≤ (pyStr hd).length) :
    codeMaxLen (hd :: cells) = specMaxLen (hd :: cells) := by
  unfold codeMaxLen specMaxLen
  rw [List.foldl_cons, List.foldl_cons, if_pos hhd]
  apply foldl_truthy_eq
  intro c hc hf
  exact le_trans (h c hc hf) (Nat.le_max_right 0 _)

theorem foldl_max_len (L : Nat) :
    ∀ (rs : List (List PyVal)), (∀ r ∈ rs, r.length = L) →
      rs.foldl (fun m r => max m r.length) L = L := by
  intro rs
  induction rs with
  | nil => intro _; rfl
  | cons r rs ih =>
    intro h
    rw [List.foldl_cons, h r (by simp), Nat.max_self]
    exact ih (fun x hx => h x (by simp [hx]))

theorem mem_colCells {g : List (List PyVal)} {j : Nat} {c : PyVal}
    (h : c ∈ colCells g j) : ∃ r ∈ g, r[j]? = some c :=
  List.mem_filterMap.mp h

theorem mem_row_of_getElem {r : List PyVal} {j : Nat} {c : PyVal}
    (h : r[j]? = some c) : c ∈ r := by
  obtain ⟨hj, hc⟩ := List.getElem?_eq_some.mp h
  exact hc ▸ List.getElem_mem hj

/-- C8: after the formatting pass every column of every sheet of the
produced workbook (summary and each detail sheet) has width
`L + 2` (the code's `(max_length + 2) * 1.0`), where `L` is the maximum
rendered character length over all cells of the column, header included
— provided survey names/descriptions and declared headers are strings
(which is what the pipeline produces). -/
theorem c8_column_widths (surveys : List (PyVal × Survey)) (sheets : List SheetData)
    (hsv : ∀ p ∈ surveys, p.2.name.isStr = true ∧ p.2.description.isStr = true)
    (hhdr : ∀ sh ∈ sheets, ∀ hc ∈ sh.2.1, PyVal.isStr hc = true) :
    ∀ p ∈ write_to_excel surveys sheets,
      fix_sheet_widths p.2 =
        (List.range (numCols p.2)).map (fun j => specMaxLen (colCells p.2 j) + 2) := by
  intro p hp
  unfold fix_sheet_widths
  apply List.map_congr_left
  intro j hj
  suffices hsuf : codeMaxLen (colCells p.2 j) = specMaxLen (colCells p.2 j) by rw [hsuf]
  rcases List.mem_cons.mp hp with rfl | hdet
  · dsimp only at hj ⊢
    have hlen : ∀ r ∈ surveys.map (fun q => summaryRow sheets q.2), r.length = 5 := by
      intro r hr
      obtain ⟨q, hq, rfl⟩ := List.mem_map.mp hr
      rfl
    have hnum : numCols (summaryHeader :: surveys.map (fun q => summaryRow sheets q.2)) = 5 := by
      unfold numCols
      rw [List.foldl_cons]
      have h0 : max 0 summaryHeader.length = 5 := by decide
      rw [h0]
      exact foldl_max_len 5 _ hlen
    rw [hnum, List.mem_range] at hj
    interval_cases j
    · apply codeMaxLen_eq_of_strings
      intro c hc
      obtain ⟨r, hr, hrc⟩ := mem_colCells hc
      rcases List.mem_cons.mp hr with rfl | hr2
      · simp only [summaryHeader] at hrc
        simp only [List.getElem?_cons_zero, Option.some.injEq] at hrc
        rw [← hrc]
        rfl
      · obtain ⟨q, hq, rfl⟩ := List.mem_map.mp hr2
        simp only [summaryRow, List.getElem?_cons_zero, Option.some.injEq] at hrc
        rw [← hrc]
        exact (hsv q hq).1
    · apply codeMaxLen_eq_of_strings
      intro c hc
      obtain ⟨r, hr, hrc⟩ := mem_colCells hc
      rcases List.mem_cons.mp hr with rfl | hr2
      · simp only [summaryHeader, List.getElem?_cons_succ, List.getElem?_cons_zero,
          Option.some.injEq] at hrc
        rw [← hrc]
        rfl
      · obtain ⟨q, hq, rfl⟩ := List.mem_map.mp hr2
        simp only [summaryRow, List.getElem?_cons_succ, List.getElem?_cons_zero,
          Option.some.injEq] at hrc
        rw [← hrc]
        exact (hsv q hq).2
    · apply codeMaxLen_eq_of_strings
      intro c hc
      obtain ⟨r, hr, hrc⟩ := mem_colCells hc
      rcases List.mem_cons.mp hr with rfl | hr2
      · simp only [summaryHeader, List.getElem?_cons_succ, List.getElem?_cons_zero,
          Option.some.injEq] at hrc
        rw [← hrc]
        rfl
      · obtain ⟨q, hq, rfl⟩ := List.mem_map.mp hr2
        simp only [summaryRow, List.getElem?_cons_succ, List.getElem?_cons_zero,
          Option.some.injEq] at hrc
        rw [← hrc]
        rfl
    · have hcol : colCells (summaryHeader :: surveys.map (fun q => summaryRow sheets q.2)) 3 =
          PyVal.str "מספר שאלות" ::
            (surveys.map (fun q => summaryRow sheets q.2)).filterMap (fun r => r[3]?) := by
        simp [colCells, summaryHeader]
      rw [hcol]
      apply codeMaxLen_cons_eq
      · decide
      · intro c hc hf
        obtain ⟨r, hr, hrc⟩ := List.mem_filterMap.mp hc
        obtain ⟨q, hq, rfl⟩ := List.mem_map.mp hr
        simp only [summaryRow, List.getElem?_cons_succ, List.getElem?_cons_zero,
          Option.some.injEq] at hrc
        rw [← hrc] at hf ⊢
        simp only [truthy] at hf
        have hz : q.2.questions.length = 0 := by simpa using hf
        rw [hz]
        decide
    · have hcol : colCells (summaryHeader :: surveys.map (fun q => summaryRow sheets q.2)) 4 =
          PyVal.str "מספר תגובות" ::
            (surveys.map (fun q => summaryRow sheets q.2)).filterMap (fun r => r[4]?) := by
        simp [colCells, summaryHeader]
      rw [hcol]
      apply codeMaxLen_cons_eq
      · decide
      · intro c hc hf
        obtain ⟨r, hr, hrc⟩ := List.mem_filterMap.mp hc
        obtain ⟨q, hq, rfl⟩ := List.mem_map.mp hr
        simp only [summaryRow, List.getElem?_cons_succ, List.getElem?_cons_zero,
          Option.some.injEq] at hrc
        rw [← hrc] at hf ⊢
        simp only [truthy] at hf
        have hz : (sheets.filter (fun sh => sh.1 == q.2.name)).length = 0 := by simpa using hf
        rw [hz]
        decide
  · obtain ⟨sh, hsh, rfl⟩ := List.mem_map.mp hdet
    dsimp only
    apply codeMaxLen_eq_of_strings
    intro c hc
    obtain ⟨r, hr, hrc⟩ := mem_colCells hc
    have hcr : c ∈ r := mem_row_of_getElem hrc
    rcases List.mem_cons.mp hr with rfl | hr2
    · exact hhdr sh hsh c hcr
    · obtain ⟨row, hrow, rfl⟩ := List.mem_map.mp hr2
      obtain ⟨hk, hk2, rfl⟩ := List.mem_map.mp hcr
      rfl

theorem c8_witness :
    fix_sheet_widths (detailGrid hsW6 rowsW6) =
      (List.range (numCols (detailGrid hsW6 rowsW6))).map
        (fun j => specMaxLen (colCells (detailGrid hsW6 rowsW6) j) + 2) :=
  c8_column_widths [(PyVal.str "s1", svW)] [(PyVal.str "S", hsW6, rowsW6)]
    (by decide) (by decide) (PyVal.str "S", detailGrid hsW6 rowsW6) (by decide)
